import Mathlib

/-!
Verification of `src/mathUtils.js`.

A shallow embedding of the `MathUtils` module: a stateless numeric utility
library (arithmetic, square root, factorial, primality, Fibonacci, average,
median) with a shared input-validation routine.

Modelling conventions:
* A JavaScript number is `JSNumber`: a finite value carried at exact
  rational precision, `+Infinity`, `-Infinity`, or `NaN`.  Signed zero is
  not distinguished (in the source `-0 === 0` holds, and no operation under
  verification branches on the sign of zero).
* A JavaScript value, as far as the library inspects one, is `JSValue`:
  a number, a string, a boolean, `undefined`, `null`, or an array.
* A function that can `throw` returns `Except MathError α`; the thrown
  `Error` messages are identified by the `MathError` constructor named
  after the failure.
-/

/-- The failures raised by the library, one constructor per `throw` site
(plus the two validation failures). -/
inductive MathError
  | invalidNumber
  | notAnInteger
  | divisionByZero
  | negativeRadicand
  | negativeFactorial
  | negativeIndex
  | emptyOrInvalidInput
deriving DecidableEq

/-- A JavaScript number: finite (exact rational), `+Infinity`, `-Infinity`,
or `NaN`. -/
inductive JSNumber
  | finite (q : ℚ)
  | posInf
  | negInf
  | nan
deriving DecidableEq

/-- A JavaScript value, as far as `mathUtils.js` inspects one. -/
inductive JSValue
  | num (x : JSNumber)
  | str (s : String)
  | boolean (b : Bool)
  | undefined
  | jsNull
  | arr (elems : List JSValue)

/-- Source `validateNumber(value)` (src/mathUtils.js:111-115): throws
`Invalid number` when `typeof value !== 'number' || isNaN(value)`.
Only the `NaN` number is rejected among numbers: `±Infinity` passes. -/
def validateNumber (value : JSValue) : Except MathError Unit :=
  match value with
  | .num .nan => .error .invalidNumber
  | .num _ => .ok ()
  | _ => .error .invalidNumber

/-- Source `validateNumbers(...values)` (src/mathUtils.js:117-119): applies
`validateNumber` to each value in order, failing at the first invalid one. -/
def validateNumbers (values : List JSValue) : Except MathError Unit :=
  match values with
  | [] => .ok ()
  | v :: rest => do
      validateNumber v
      validateNumbers rest

/-- JavaScript `Number.isInteger(value)`: true exactly for finite numbers with zero
fractional part. -/
def isIntegerValue (x : JSNumber) : Bool :=
  match x with
  | .finite q => q.den == 1
  | _ => false

/-- Source `validateInteger(value)` (src/mathUtils.js:121-126): `validateNumber`,
then throw `Expected integer` unless `Number.isInteger(value)`. -/
def validateInteger (value : JSValue) : Except MathError Unit := do
  validateNumber value
  match value with
  | .num x => if isIntegerValue x then .ok () else .error .notAnInteger
  | _ => .error .notAnInteger

/-- JavaScript `+` on two numbers, with finite arithmetic carried exactly. -/
def jsAdd : JSNumber → JSNumber → JSNumber
  | .nan, _ => .nan
  | _, .nan => .nan
  | .posInf, .negInf => .nan
  | .negInf, .posInf => .nan
  | .posInf, _ => .posInf
  | _, .posInf => .posInf
  | .negInf, _ => .negInf
  | _, .negInf => .negInf
  | .finite a, .finite b => .finite (a + b)

/-- JavaScript `*` on two numbers, with finite arithmetic carried exactly. -/
def jsMul : JSNumber → JSNumber → JSNumber
  | .nan, _ => .nan
  | _, .nan => .nan
  | .posInf, .posInf => .posInf
  | .posInf, .negInf => .negInf
  | .negInf, .posInf => .negInf
  | .negInf, .negInf => .posInf
  | .posInf, .finite b => if b = 0 then .nan else if 0 < b then .posInf else .negInf
  | .finite a, .posInf => if a = 0 then .nan else if 0 < a then .posInf else .negInf
  | .negInf, .finite b => if b = 0 then .nan else if 0 < b then .negInf else .posInf
  | .finite a, .negInf => if a = 0 then .nan else if 0 < a then .negInf else .posInf
  | .finite a, .finite b => .finite (a * b)

/-- JavaScript `/` on two numbers, with finite arithmetic carried exactly
(the sign of a zero operand is not tracked, see the module comment). -/
def jsDiv : JSNumber → JSNumber → JSNumber
  | .nan, _ => .nan
  | _, .nan => .nan
  | .posInf, .posInf => .nan
  | .posInf, .negInf => .nan
  | .negInf, .posInf => .nan
  | .negInf, .negInf => .nan
  | .posInf, .finite b => if 0 ≤ b then .posInf else .negInf
  | .negInf, .finite b => if 0 ≤ b then .negInf else .posInf
  | .finite _, .posInf => .finite 0
  | .finite _, .negInf => .finite 0
  | .finite a, .finite b =>
      if b = 0 then (if a = 0 then .nan else if 0 < a then .posInf else .negInf)
      else .finite (a / b)

/-- JavaScript `value === 0` on a number: true exactly for finite zero
(`NaN === 0` and `Infinity === 0` are false). -/
def strictEqZero (x : JSNumber) : Bool :=
  match x with
  | .finite q => q == 0
  | _ => false

/-- Source `add(a, b)` (src/mathUtils.js:3-6): validate both operands, return
`a + b`.  The catch-all row is unreachable once validation succeeds. -/
def add (a b : JSValue) : Except MathError JSNumber := do
  validateNumbers [a, b]
  match a, b with
  | .num x, .num y => .ok (jsAdd x y)
  | _, _ => .error .invalidNumber

/-- Source `multiply(a, b)` (src/mathUtils.js:13-16): validate both operands,
return `a * b`.  The catch-all row is unreachable once validation
succeeds. -/
def multiply (a b : JSValue) : Except MathError JSNumber := do
  validateNumbers [a, b]
  match a, b with
  | .num x, .num y => .ok (jsMul x y)
  | _, _ => .error .invalidNumber

/-- Source `divide(a, b)` (src/mathUtils.js:18-24): validate both operands, then
throw `Division by zero` when `b === 0`, else return `a / b`.  The
catch-all row is unreachable once validation succeeds. -/
def divide (a b : JSValue) : Except MathError JSNumber := do
  validateNumbers [a, b]
  match a, b with
  | .num x, .num y =>
      if strictEqZero y then .error .divisionByZero else .ok (jsDiv x y)
  | _, _ => .error .invalidNumber

/-- Source `squareRoot(number)` (src/mathUtils.js:32-38) on a valid (finite)
number: throw `NegativeRadicand` when `number < 0`, else return
`Math.sqrt(number)`, modelled as the exact nonnegative real root. -/
noncomputable def squareRoot (n : ℚ) : Except MathError ℝ :=
  if n < 0 then .error .negativeRadicand
  else .ok (Real.sqrt n)

/-- The loop of `factorial` (src/mathUtils.js:47-50):
`result = 1; for (i = 2; i <= number; i++) result *= i`, entered here at a
general counter `i` and accumulator `result`. -/
def factLoop (n : ℕ) (i : ℕ) (result : ℤ) : ℤ :=
  if i ≤ n then factLoop n (i + 1) (result * i) else result
termination_by n + 1 - i
decreasing_by omega

/-- Source `factorial(number)` (src/mathUtils.js:40-52) on an integer argument:
throw `NegativeFactorial` for `number < 0`, return `1` for `0` and `1`,
else run the product loop from `2`. -/
def factorial (n : ℤ) : Except MathError ℤ :=
  if n < 0 then .error .negativeFactorial
  else if n = 0 ∨ n = 1 then .ok 1
  else .ok (factLoop n.toNat 2 1)

/-- The loop of `isPrime` (src/mathUtils.js:61-63):
`for (i = 3; i <= Math.sqrt(number); i += 2)`, entered here at a general
odd counter `i`.  For an integer `i`, `i <= Math.sqrt(n)` is equivalent to
`i ≤ ⌊√n⌋ = Nat.sqrt n`. -/
def isPrimeLoop (n : ℕ) (i : ℕ) : Bool :=
  if i ≤ Nat.sqrt n then
    if n % i = 0 then false else isPrimeLoop n (i + 2)
  else true
termination_by Nat.sqrt n + 2 - i
decreasing_by omega

/-- Source `isPrime(number)` (src/mathUtils.js:55-65) on an integer argument:
`false` below `2`, `true` at `2`, `false` for even numbers, else trial
division by odd candidates from `3` up to `√number`. -/
def isPrime (n : ℤ) : Bool :=
  if n < 2 then false
  else if n = 2 then true
  else if n % 2 = 0 then false
  else isPrimeLoop n.toNat 3

/-- The slow reference the spec names (§8): trial division by every
candidate `d` with `2 ≤ d < n`. -/
def trialDivision (n : ℕ) : Bool :=
  decide (2 ≤ n) && (List.range n).all fun d => decide (d < 2) || !(decide (d ∣ n))

/-- The loop of `fibonacci` (src/mathUtils.js:73-78):
`a = 0, b = 1; for (i = 2; i <= n; i++) { temp = a + b; a = b; b = temp }`,
entered here at a general counter `i` and running pair `a, b`. -/
def fibLoop (n : ℕ) (i : ℕ) (a b : ℤ) : ℤ :=
  if i ≤ n then fibLoop n (i + 1) b (a + b) else b
termination_by n + 1 - i
decreasing_by omega

/-- Source `fibonacci(n)` (src/mathUtils.js:67-80) on an integer argument: throw
`NegativeIndex` for `n < 0`, return `0` and `1` at the base indices, else
run the iteration loop from `2`. -/
def fibonacci (n : ℤ) : Except MathError ℤ :=
  if n < 0 then .error .negativeIndex
  else if n = 0 then .ok 0
  else if n = 1 then .ok 1
  else .ok (fibLoop n.toNat 2 0 1)

/-- Source `average(numbers)` (src/mathUtils.js:83-91): throw
`EmptyOrInvalidInput` unless the argument is a non-empty array, validate
every element, then return the sum (a `reduce` from `0`) divided by the
length.  The accumulator function's catch-all row is unreachable once
validation succeeds. -/
def average (numbers : JSValue) : Except MathError JSNumber :=
  match numbers with
  | .arr ns =>
      if ns.isEmpty then .error .emptyOrInvalidInput
      else do
        validateNumbers ns
        let sum := ns.foldl (fun acc curr =>
          match curr with
          | .num x => jsAdd acc x
          | _ => acc) (JSNumber.finite 0)
        .ok (jsDiv sum (.finite ns.length))
  | _ => .error .emptyOrInvalidInput

/-- Source `median(numbers)` (src/mathUtils.js:93-107) on a sequence of valid
(finite) numbers: sort an ascending copy (`[...numbers].sort((a,b) => a-b)`
— the input list itself is left untouched, which in this embedding is
immediate since `mergeSort` builds a new list), then return the middle
element (odd length) or the mean of the two middle elements (even
length). -/
def median (numbers : List ℚ) : Except MathError ℚ :=
  if numbers.isEmpty then .error .emptyOrInvalidInput
  else
    let sorted := numbers.mergeSort (fun a b => a ≤ b)
    let mid := sorted.length / 2
    if sorted.length % 2 = 0 then .ok ((sorted.getD (mid - 1) 0 + sorted.getD mid 0) / 2)
    else .ok (sorted.getD mid 0)

/-- Function `validateNumber` either succeeds or fails with `InvalidNumber`; no
other outcome exists. -/
theorem validateNumber_cases (v : JSValue) :
    validateNumber v = Except.ok () ∨
      validateNumber v = Except.error MathError.invalidNumber := by
  cases v with
  | num x => cases x <;> simp [validateNumber]
  | str s => simp [validateNumber]
  | boolean b => simp [validateNumber]
  | undefined => simp [validateNumber]
  | jsNull => simp [validateNumber]
  | arr elems => simp [validateNumber]

/-- C2 counterexample: `validateNumber(Infinity)` succeeds, so the claim
that every infinite argument raises `InvalidNumber` is false at
`v = +Infinity`. -/
theorem validateNumber_accepts_infinity :
    validateNumber (JSValue.num JSNumber.posInf) = Except.ok () := rfl

/-- C2 (amended): `validateNumber(v)` fails with `InvalidNumber` exactly
when `v` is not a number at all or is `NaN`; the infinities `±Infinity`
pass validation. -/
theorem validateNumber_spec (v : JSValue) :
    validateNumber v = Except.error MathError.invalidNumber ↔
      (∀ x : JSNumber, v ≠ JSValue.num x) ∨ v = JSValue.num JSNumber.nan := by
  cases v with
  | num x => cases x <;> simp [validateNumber]
  | str s => simp [validateNumber]
  | boolean b => simp [validateNumber]
  | undefined => simp [validateNumber]
  | jsNull => simp [validateNumber]
  | arr elems => simp [validateNumber]

/-- Running `validateNumbers` on a two-element list: the first failure
wins; success needs both. -/
theorem validateNumbers_pair (a b : JSValue) :
    validateNumbers [a, b] = Except.ok () ↔
      validateNumber a = Except.ok () ∧ validateNumber b = Except.ok () := by
  rcases validateNumber_cases a with ha | ha <;>
    rcases validateNumber_cases b with hb | hb <;>
      simp [validateNumbers, ha, hb, Except.bind, bind]

/-- If either operand fails validation, `validateNumbers` on the pair
fails with `InvalidNumber`. -/
theorem validateNumbers_pair_invalid (a b : JSValue)
    (h : validateNumber a = Except.error MathError.invalidNumber ∨
         validateNumber b = Except.error MathError.invalidNumber) :
    validateNumbers [a, b] = Except.error MathError.invalidNumber := by
  rcases validateNumber_cases a with ha | ha <;>
    rcases validateNumber_cases b with hb | hb
  · simp [ha, hb] at h
  all_goals simp [validateNumbers, ha, hb, Except.bind, bind]

/-- C6: on valid (finite) operands, `divide` fails with `DivisionByZero`
exactly when the divisor is zero, and otherwise returns the exact
quotient. -/
theorem divide_correct (a b : ℚ) :
    (divide (JSValue.num (JSNumber.finite a)) (JSValue.num (JSNumber.finite b)) =
        Except.error MathError.divisionByZero ↔ b = 0) ∧
    (b ≠ 0 → divide (JSValue.num (JSNumber.finite a)) (JSValue.num (JSNumber.finite b)) =
        Except.ok (JSNumber.finite (a / b))) := by
  by_cases hb : b = 0
  · subst hb
    simp [divide, validateNumbers, validateNumber, strictEqZero, Except.bind, bind]
  · constructor
    · simp [divide, validateNumbers, validateNumber, strictEqZero, hb, Except.bind, bind, jsDiv]
    · intro _
      simp [divide, validateNumbers, validateNumber, strictEqZero, hb, Except.bind, bind, jsDiv]

/-- C9: `add` and `multiply` are commutative on valid (finite) number
operands. -/
theorem add_multiply_comm (a b : ℚ) :
    add (JSValue.num (JSNumber.finite a)) (JSValue.num (JSNumber.finite b)) =
      add (JSValue.num (JSNumber.finite b)) (JSValue.num (JSNumber.finite a)) ∧
    multiply (JSValue.num (JSNumber.finite a)) (JSValue.num (JSNumber.finite b)) =
      multiply (JSValue.num (JSNumber.finite b)) (JSValue.num (JSNumber.finite a)) := by
  constructor <;>
    simp [add, multiply, validateNumbers, validateNumber, jsAdd, jsMul,
      Except.bind, bind, add_comm, mul_comm]

/-- C10: in `divide`, operand validation strictly precedes the zero
check.  An operand is invalid here exactly when the source's
`validateNumber` rejects it (not a number, or `NaN`): any such operand —
including with divisor `0` — makes `divide` fail with `InvalidNumber`,
and `DivisionByZero` is only reachable when both operands pass
validation. -/
theorem divide_validation_precedes_zero_check :
    (∀ a b : JSValue,
        validateNumber a = Except.error MathError.invalidNumber ∨
        validateNumber b = Except.error MathError.invalidNumber →
        divide a b = Except.error MathError.invalidNumber) ∧
    (∀ a b : JSValue, divide a b = Except.error MathError.divisionByZero →
        validateNumber a = Except.ok () ∧ validateNumber b = Except.ok ()) := by
  constructor
  · intro a b h
    have hv := validateNumbers_pair_invalid a b h
    simp [divide, hv, Except.bind, bind]
  · intro a b h
    rcases validateNumber_cases a with ha | ha <;>
      rcases validateNumber_cases b with hb | hb
    · exact ⟨ha, hb⟩
    all_goals
      have hv := validateNumbers_pair_invalid a b (by tauto)
      simp [divide, hv, Except.bind, bind] at h

/-- The factorial loop multiplies the accumulator by every counter value
from `i` through `n`. -/
theorem factLoop_eq_prod (n : ℕ) :
    ∀ k i r, n + 1 - i ≤ k →
      factLoop n i r = r * ((List.range' i (n + 1 - i)).prod : ℕ) := by
  intro k
  induction k with
  | zero =>
      intro i r h
      rw [factLoop]
      have hgt : ¬ i ≤ n := by omega
      have h0 : n + 1 - i = 0 := by omega
      simp [hgt, h0]
  | succ k ih =>
      intro i r h
      rw [factLoop]
      by_cases hi : i ≤ n
      · simp only [if_pos hi]
        rw [ih (i + 1) (r * i) (by omega)]
        have h1 : n + 1 - i = (n - i) + 1 := by omega
        have h2 : n + 1 - (i + 1) = n - i := by omega
        rw [h1, h2, List.range'_succ]
        push_cast [List.map_cons, List.prod_cons]
        ring
      · simp only [if_neg hi]
        have h0 : n + 1 - i = 0 := by omega
        simp [h0]

/-- The product of `1, 2, …, n` is `n!`. -/
theorem range'_one_prod (n : ℕ) : (List.range' 1 n).prod = Nat.factorial n := by
  induction n with
  | zero => rfl
  | succ n ih =>
      rw [List.range'_concat, List.prod_append, ih, Nat.factorial_succ]
      simp
      ring

/-- C3: `factorial` fails with `NegativeFactorial` on negative integers
and returns the mathematical factorial `n!` (the product `2 × 3 × … × n`,
with the `0` and `1` base cases) otherwise. -/
theorem factorial_correct (n : ℤ) :
    factorial n = if n < 0 then Except.error MathError.negativeFactorial
      else Except.ok ((Nat.factorial n.toNat : ℕ) : ℤ) := by
  unfold factorial
  by_cases hneg : n < 0
  · simp [hneg]
  · simp only [if_neg hneg]
    by_cases h01 : n = 0 ∨ n = 1
    · rcases h01 with h | h <;> subst h <;> simp [Nat.factorial]
    · simp only [if_neg h01]
      have h2 : 2 ≤ n.toNat := by omega
      rw [factLoop_eq_prod n.toNat (n.toNat + 1 - 2) 2 1 (le_refl _)]
      have hsplit : List.range' 1 n.toNat = 1 :: List.range' 2 (n.toNat - 1) := by
        have hn : n.toNat = (n.toNat - 1) + 1 := by omega
        rw [hn, List.range'_succ]
        simp
      have hprod : (List.range' 2 (n.toNat - 1)).prod = Nat.factorial n.toNat := by
        have := range'_one_prod n.toNat
        rw [hsplit] at this
        simpa using this
      have harg : n.toNat + 1 - 2 = n.toNat - 1 := by omega
      rw [harg, hprod]
      simp

/-- The Fibonacci loop, entered at counter `i` with the two preceding
Fibonacci numbers, computes `F(n)`. -/
theorem fibLoop_eq_fib (n : ℕ) :
    ∀ k i, n + 1 - i ≤ k → 2 ≤ i → i ≤ n + 1 →
      fibLoop n i (Nat.fib (i - 2)) (Nat.fib (i - 1)) = (Nat.fib n : ℤ) := by
  intro k
  induction k with
  | zero =>
      intro i h h2 hle
      have hi : i = n + 1 := by omega
      rw [fibLoop]
      have hgt : ¬ i ≤ n := by omega
      simp only [if_neg hgt]
      subst hi
      norm_num
  | succ k ih =>
      intro i h h2 hle
      rw [fibLoop]
      by_cases hi : i ≤ n
      · simp only [if_pos hi]
        have hfib : Nat.fib (i - 2) + Nat.fib (i - 1) = Nat.fib i := by
          have h' : i - 2 + 2 = i := by omega
          calc Nat.fib (i - 2) + Nat.fib (i - 1)
              = Nat.fib (i - 2) + Nat.fib (i - 2 + 1) := by congr 2; omega
            _ = Nat.fib (i - 2 + 2) := (Nat.fib_add_two).symm
            _ = Nat.fib i := by rw [h']
        have h3 := ih (i + 1) (by omega) (by omega) (by omega)
        have e1 : i + 1 - 2 = i - 1 := by omega
        have e2 : i + 1 - 1 = i := by omega
        rw [e1, e2] at h3
        rw [← h3]
        congr 1
        exact_mod_cast hfib
      · simp only [if_neg hi]
        have hi' : i = n + 1 := by omega
        subst hi'
        norm_num

/-- C4: `fibonacci` fails with `NegativeIndex` on negative integers and
returns the `n`-th Fibonacci number (`F(0)=0`, `F(1)=1`,
`F(k)=F(k-1)+F(k-2)`) otherwise. -/
theorem fibonacci_correct (n : ℤ) :
    fibonacci n = if n < 0 then Except.error MathError.negativeIndex
      else Except.ok ((Nat.fib n.toNat : ℕ) : ℤ) := by
  unfold fibonacci
  by_cases hneg : n < 0
  · simp [hneg]
  · simp only [if_neg hneg]
    by_cases h0 : n = 0
    · subst h0; simp
    · simp only [if_neg h0]
      by_cases h1 : n = 1
      · subst h1; simp
      · simp only [if_neg h1]
        have h3 := fibLoop_eq_fib n.toNat (n.toNat + 1 - 2) 2 (le_refl _)
          (le_refl _) (by omega)
        simpa using h3

/-- C5: `median` sorts a copy of the sequence ascending (a permutation of
the input — the input list itself is untouched) and returns the middle
element for odd length, or the mean of the elements at 0-based indices
`len/2 - 1` and `len/2` for even length; the empty sequence is the only
one rejected. -/
theorem median_correct (l : List ℚ) :
    (median l = Except.error MathError.emptyOrInvalidInput ↔ l = []) ∧
    (l ≠ [] → ∃ s : List ℚ, s.Perm l ∧ s.Sorted (fun a b => a ≤ b) ∧
      median l = Except.ok (if s.length % 2 = 0
        then (s.getD (s.length / 2 - 1) 0 + s.getD (s.length / 2) 0) / 2
        else s.getD (s.length / 2) 0)) := by
  constructor
  · by_cases h : l = []
    · subst h; simp [median]
    · have hne : l.isEmpty = false := by simpa [List.isEmpty_iff] using h
      simp only [median, hne, Bool.false_eq_true, if_false]
      constructor
      · intro hc
        split at hc <;> simp at hc
      · intro hc
        exact absurd hc h
  · intro h
    have hne : l.isEmpty = false := by simpa [List.isEmpty_iff] using h
    refine ⟨l.mergeSort (fun a b => a ≤ b), List.mergeSort_perm l _, ?_, ?_⟩
    · have hs := @List.sorted_mergeSort ℚ (fun a b : ℚ => decide (a ≤ b))
        (fun a b c hab hbc => by
          simp only [decide_eq_true_eq] at hab hbc ⊢
          exact le_trans hab hbc)
        (fun a b => by
          simpa using le_total a b) l
      refine hs.imp ?_
      intro a b hab
      simpa using hab
    · simp only [median, hne, Bool.false_eq_true, if_false]
      split <;> rfl

/-- C7: `squareRoot` fails with `NegativeRadicand` exactly on negative
input, and on nonnegative input returns the nonnegative real root. -/
theorem squareRoot_correct (q : ℚ) :
    (squareRoot q = Except.error MathError.negativeRadicand ↔ q < 0) ∧
    (0 ≤ q → ∃ r : ℝ, squareRoot q = Except.ok r ∧ 0 ≤ r ∧ r ^ 2 = (q : ℝ)) := by
  constructor
  · by_cases h : q < 0 <;> simp [squareRoot, h]
  · intro h
    refine ⟨Real.sqrt q, ?_, Real.sqrt_nonneg _, Real.sq_sqrt (by exact_mod_cast h)⟩
    simp [squareRoot, not_lt.mpr h]

/-- Function `validateNumbers` succeeds exactly when every element passes
`validateNumber`. -/
theorem validateNumbers_ok_iff (ns : List JSValue) :
    validateNumbers ns = Except.ok () ↔
      ∀ v ∈ ns, validateNumber v = Except.ok () := by
  induction ns with
  | nil => simp [validateNumbers]
  | cons v rest ih =>
      rcases validateNumber_cases v with hv | hv <;>
        simp [validateNumbers, hv, Except.bind, bind, ih]

/-- Function `validateNumbers` either succeeds or fails with `InvalidNumber`. -/
theorem validateNumbers_cases (ns : List JSValue) :
    validateNumbers ns = Except.ok () ∨
      validateNumbers ns = Except.error MathError.invalidNumber := by
  induction ns with
  | nil => left; rfl
  | cons v rest ih =>
      rcases validateNumber_cases v with hv | hv
      · rcases ih with hr | hr <;>
          simp [validateNumbers, hv, hr, Except.bind, bind]
      · right; simp [validateNumbers, hv, Except.bind, bind]

/-- The `reduce` of `average`, run over finite numbers, accumulates their
exact sum. -/
theorem foldl_jsAdd_finite (l : List ℚ) : ∀ q0 : ℚ,
    ((l.map fun q => JSValue.num (JSNumber.finite q)).foldl
      (fun acc curr => match curr with | .num x => jsAdd acc x | _ => acc)
      (JSNumber.finite q0)) = JSNumber.finite (q0 + l.sum) := by
  induction l with
  | nil => intro q0; simp
  | cons a rest ih =>
      intro q0
      rw [List.map_cons, List.foldl_cons, List.sum_cons, ← add_assoc]
      exact ih (q0 + a)

/-- C8: `average` rejects a missing/non-array or empty argument with
`EmptyOrInvalidInput`, validates every element of a non-empty array
(failing with `InvalidNumber` if any element is invalid), and on valid
(finite) elements returns their sum divided by their count. -/
theorem average_correct :
    (∀ v : JSValue, (∀ l, v ≠ JSValue.arr l) →
        average v = Except.error MathError.emptyOrInvalidInput) ∧
    (average (JSValue.arr []) = Except.error MathError.emptyOrInvalidInput) ∧
    (∀ ns : List JSValue, ns ≠ [] →
        (∃ v ∈ ns, validateNumber v = Except.error MathError.invalidNumber) →
        average (JSValue.arr ns) = Except.error MathError.invalidNumber) ∧
    (∀ l : List ℚ, l ≠ [] →
        average (JSValue.arr (l.map fun q => JSValue.num (JSNumber.finite q))) =
          Except.ok (JSNumber.finite (l.sum / l.length))) := by
  refine ⟨?_, rfl, ?_, ?_⟩
  · intro v hv
    cases v with
    | arr elems => exact absurd rfl (hv elems)
    | num x => rfl
    | str s => rfl
    | boolean b => rfl
    | undefined => rfl
    | jsNull => rfl
  · intro ns hne hex
    have hval : validateNumbers ns = Except.error MathError.invalidNumber := by
      rcases validateNumbers_cases ns with hok | herr
      · obtain ⟨v, hv, hverr⟩ := hex
        rw [validateNumbers_ok_iff] at hok
        rw [hok v hv] at hverr
        cases hverr
      · exact herr
    have hne' : ns.isEmpty = false := by simpa [List.isEmpty_iff] using hne
    simp [average, hne', hval, Except.bind, bind]
  · intro l hne
    have hne' : (l.map fun q => JSValue.num (JSNumber.finite q)).isEmpty = false := by
      simp [List.isEmpty_iff, hne]
    have hval : validateNumbers (l.map fun q => JSValue.num (JSNumber.finite q)) =
        Except.ok () := by
      rw [validateNumbers_ok_iff]
      intro v hv
      simp only [List.mem_map] at hv
      obtain ⟨q, _, rfl⟩ := hv
      rfl
    have hlen : (l.map fun q => JSValue.num (JSNumber.finite q)).length = l.length :=
      List.length_map l _
    have hlenne : (l.length : ℚ) ≠ 0 := by
      simpa using hne
    simp only [average, hne', Bool.false_eq_true, if_false, hval, Except.bind, bind,
      foldl_jsAdd_finite l 0, zero_add, hlen, jsDiv, hlenne, if_neg hlenne]

/-- The trial-division loop, entered at an odd counter `i`, returns `true`
exactly when no odd candidate between `i` and `√n` divides `n`. -/
theorem isPrimeLoop_true_iff (n : ℕ) :
    ∀ k i, Nat.sqrt n + 2 - i ≤ k → i % 2 = 1 →
      (isPrimeLoop n i = true ↔
        ∀ d, d % 2 = 1 → i ≤ d → d ≤ Nat.sqrt n → ¬ d ∣ n) := by
  intro k
  induction k with
  | zero =>
      intro i h hodd
      have hgt : ¬ i ≤ Nat.sqrt n := by omega
      rw [isPrimeLoop]
      simp only [if_neg hgt, true_iff]
      intro d hd hid hdn
      omega
  | succ k ih =>
      intro i h hodd
      rw [isPrimeLoop]
      by_cases hle : i ≤ Nat.sqrt n
      · simp only [if_pos hle]
        by_cases hdvd : n % i = 0
        · simp only [if_pos hdvd, Bool.false_eq_true, false_iff]
          push_neg
          exact ⟨i, hodd, le_refl i, hle, Nat.dvd_iff_mod_eq_zero.mpr hdvd⟩
        · simp only [if_neg hdvd]
          rw [ih (i + 2) (by omega) (by omega)]
          constructor
          · intro hall d hd hid hdn
            rcases Nat.lt_or_ge d (i + 2) with hlt | hge
            · have hdi : d = i := by omega
              subst hdi
              intro hcon
              exact hdvd (Nat.dvd_iff_mod_eq_zero.mp hcon)
            · exact hall d hd hge hdn
          · intro hall d hd hid hdn
            exact hall d hd (by omega) hdn
      · rw [if_neg hle]
        simp only [true_iff]
        intro d hd hid hdn
        omega

/-- An odd `n ≥ 3` is prime exactly when no odd `3 ≤ d ≤ √n` divides
it. -/
theorem prime_iff_no_odd_divisor (n : ℕ) (hodd : n % 2 = 1) (h3 : 3 ≤ n) :
    Nat.Prime n ↔ ∀ d, d % 2 = 1 → 3 ≤ d → d ≤ Nat.sqrt n → ¬ d ∣ n := by
  constructor
  · intro hp d hd h3d hdsqrt hdvd
    rcases hp.eq_one_or_self_of_dvd d hdvd with h | h
    · omega
    · have := Nat.sqrt_lt_self (by omega : 1 < n)
      omega
  · intro hall
    by_contra hnp
    have hf : Nat.Prime n.minFac := Nat.minFac_prime (by omega)
    have hfd : n.minFac ∣ n := Nat.minFac_dvd n
    have hsq : n.minFac ^ 2 ≤ n := Nat.minFac_sq_le_self (by omega) hnp
    have hfodd : n.minFac % 2 = 1 := by
      rcases hf.eq_two_or_odd with h | h
      · exfalso
        rw [h] at hfd
        omega
      · exact h
    have hf3 : 3 ≤ n.minFac := by
      have := hf.two_le
      omega
    have hfsqrt : n.minFac ≤ Nat.sqrt n := by
      rw [Nat.le_sqrt]
      calc n.minFac * n.minFac = n.minFac ^ 2 := (pow_two _).symm
        _ ≤ n := hsq
    exact hall n.minFac hfodd hf3 hfsqrt hfd

/-- The slow reference agrees with primality. -/
theorem trialDivision_iff_prime (n : ℕ) :
    trialDivision n = true ↔ Nat.Prime n := by
  rw [Nat.prime_def_lt]
  unfold trialDivision
  simp only [Bool.and_eq_true, decide_eq_true_eq, List.all_eq_true, List.mem_range,
    Bool.or_eq_true, Bool.not_eq_eq_eq_not, Bool.not_true, decide_eq_false_iff_not]
  constructor
  · rintro ⟨h2, hall⟩
    refine ⟨h2, fun m hm hdvd => ?_⟩
    rcases hall m hm with hlt | hnd
    · have hm0 : m ≠ 0 := by
        intro h0
        subst h0
        have := Nat.eq_zero_of_zero_dvd hdvd
        omega
      omega
    · exact absurd hdvd hnd
  · rintro ⟨h2, hall⟩
    refine ⟨h2, fun d hd => ?_⟩
    by_cases hd2 : d < 2
    · exact Or.inl hd2
    · refine Or.inr fun hdvd => ?_
      have := hall d hd hdvd
      omega

/-- For odd `n ≥ 3`, `isPrime` runs the trial-division loop from `3`. -/
theorem isPrime_odd_eq_loop (n : ℕ) (hodd : n % 2 = 1) (h3 : 3 ≤ n) :
    isPrime (n : ℤ) = isPrimeLoop n 3 := by
  unfold isPrime
  have h1 : ¬ ((n : ℤ) < 2) := by omega
  have h2 : ¬ ((n : ℤ) = 2) := by omega
  have h4 : ¬ ((n : ℤ) % 2 = 0) := by omega
  simp only [if_neg h1, if_neg h2, if_neg h4, Int.toNat_natCast]

/-- C1: for every natural `n`, `isPrime(n)` returns `true` exactly when
`n` is prime; it agrees with trial division by every candidate up to `n`;
and for odd `n ≥ 3` it returns `false` exactly when some odd candidate
`3 ≤ d ≤ ⌊√n⌋` divides `n`.  (Together with the structure of `isPrime`
this covers the `n < 2`, `n = 2` and even cases as well.) -/
theorem isPrime_correct (n : ℕ) :
    (isPrime (n : ℤ) = true ↔ Nat.Prime n) ∧
    isPrime (n : ℤ) = trialDivision n ∧
    (n % 2 = 1 → 3 ≤ n →
      (isPrime (n : ℤ) = false ↔
        ∃ d, d % 2 = 1 ∧ 3 ≤ d ∧ d ≤ Nat.sqrt n ∧ d ∣ n)) := by
  have hA : isPrime (n : ℤ) = true ↔ Nat.Prime n := by
    by_cases h2 : n < 2
    · have hi : (n : ℤ) < 2 := by omega
      unfold isPrime
      simp only [if_pos hi, Bool.false_eq_true, false_iff]
      intro hp
      have := hp.two_le
      omega
    · by_cases heq2 : n = 2
      · subst heq2
        unfold isPrime
        norm_num
      · by_cases heven : n % 2 = 0
        · have hi1 : ¬ ((n : ℤ) < 2) := by omega
          have hi2 : ¬ ((n : ℤ) = 2) := by omega
          have hi3 : (n : ℤ) % 2 = 0 := by omega
          unfold isPrime
          simp only [if_neg hi1, if_neg hi2, if_pos hi3, Bool.false_eq_true, false_iff]
          intro hp
          rcases hp.eq_one_or_self_of_dvd 2 (Nat.dvd_of_mod_eq_zero heven) with h | h <;>
            omega
        · have hodd : n % 2 = 1 := by omega
          have h3 : 3 ≤ n := by omega
          rw [isPrime_odd_eq_loop n hodd h3,
            isPrimeLoop_true_iff n (Nat.sqrt n + 2 - 3) 3 (le_refl _) (by norm_num)]
          exact (prime_iff_no_odd_divisor n hodd h3).symm
  refine ⟨hA, ?_, ?_⟩
  · rcases hb : trialDivision n with _ | _
    · rcases hp : isPrime (n : ℤ) with _ | _
      · rfl
      · exfalso
        have := hA.mp hp
        rw [← trialDivision_iff_prime] at this
        rw [hb] at this
        cases this
    · rw [trialDivision_iff_prime] at hb
      exact hA.mpr hb
  · intro hodd h3
    rw [isPrime_odd_eq_loop n hodd h3]
    have hloop := isPrimeLoop_true_iff n (Nat.sqrt n + 2 - 3) 3 (le_refl _) (by norm_num)
    constructor
    · intro hfalse
      by_contra hno
      push_neg at hno
      have : isPrimeLoop n 3 = true := by
        rw [hloop]
        intro d hd h3d hdsqrt hdvd
        exact (hno d hd h3d hdsqrt) hdvd
      rw [this] at hfalse
      cases hfalse
    · rintro ⟨d, hd, h3d, hdsqrt, hdvd⟩
      rcases hb : isPrimeLoop n 3 with _ | _
      · rfl
      · exfalso
        rw [hloop] at hb
        exact hb d hd h3d hdsqrt hdvd
